import Mathlib

/-!
Verification of the job/queue/status-aggregation subsystem of the RugaTeam
repository (backend/services/job_service.py and
backend/services/analysis_service.py), via a shallow embedding.

Python dicts are modelled as insertion-ordered association lists, Python sets
as duplicate-free lists, and the nondeterministic inputs (uuid4, datetime.now,
the external extractor and the filesystem probe `has_ruga_metadata`) are
passed in as explicit arguments.
-/

namespace Ruga

/-! ### Python dict model: insertion-ordered association lists -/

/-- Python `d.get(k)` on a dict modelled as an association list. -/
def dictGet {β : Type} : List (String × β) → String → Option β
  | [], _ => none
  | (k', v) :: rest, k => if k' = k then some v else dictGet rest k

/-- Python `d[k] = v` on a dict: overwrite in place if the key exists
(keeping its position), otherwise append at the end. -/
def dictSet {β : Type} : List (String × β) → String → β → List (String × β)
  | [], k, v => [(k, v)]
  | (k', v') :: rest, k, v =>
    if k' = k then (k, v) :: rest else (k', v') :: dictSet rest k v

/-- Python `del d[k]` on a dict (removes the first binding of `k`). -/
def dictErase {β : Type} : List (String × β) → String → List (String × β)
  | [], _ => []
  | (k', v') :: rest, k =>
    if k' = k then rest else (k', v') :: dictErase rest k

/-- The key list of a dict, in insertion order. -/
def dictKeys {β : Type} (d : List (String × β)) : List String :=
  d.map Prod.fst

/-- The value list of a dict, in insertion order (`d.values()`). -/
def dictValues {β : Type} (d : List (String × β)) : List β :=
  d.map Prod.snd

/-! ### Data model (backend/models/schemas.py) -/

/-- Enum `AnalysisStatus` from backend/models/schemas.py. -/
inductive AnalysisStatus : Type
  | analyzed
  | in_process
  | error
  | not_found
  | pending
deriving DecidableEq, Repr

/-- Enum `JobType` from backend/models/schemas.py. -/
inductive JobType : Type
  | folder
  | file
deriving DecidableEq, Repr

/-- Model `JobInfo` from backend/models/schemas.py (the fields the job service
reads or writes; `created_at` is kept as an opaque string). -/
structure JobInfo : Type where
  job_id : String
  job_type : JobType
  root_path : String
  target_path : String
  status : AnalysisStatus
  files_queued : Nat
  files_processed : Nat
  files_failed : Nat
  created_at : String
  error_message : Option String
deriving DecidableEq, Repr

/-! ### Job registry (backend/services/job_service.py, class JobService) -/

/-- The mutable state of `JobService`. -/
structure JobServiceState : Type where
  jobs : List (String × JobInfo)
  job_files : List (String × List String)
  job_file_status : List (String × List (String × AnalysisStatus))
deriving DecidableEq, Repr

/-- State produced by `JobService.__init__`. -/
def emptyJobService : JobServiceState :=
  { jobs := [], job_files := [], job_file_status := [] }

/-- Operation `JobService.create_job`.  Both `uuid4()` and `datetime.now().isoformat()` are
nondeterministic, so the fresh `job_id` and the timestamp are arguments. -/
def create_job (s : JobServiceState) (job_type : JobType)
    (root_path target_path : String) (file_paths : List String)
    (job_id created_at : String) : JobServiceState :=
  let job_info : JobInfo :=
    { job_id := job_id
      job_type := job_type
      root_path := root_path
      target_path := target_path
      status := AnalysisStatus.pending
      files_queued := file_paths.length
      files_processed := 0
      files_failed := 0
      created_at := created_at
      error_message := none }
  { s with
    jobs := dictSet s.jobs job_id job_info
    job_files := dictSet s.job_files job_id file_paths
    job_file_status :=
      dictSet s.job_file_status job_id
        (file_paths.foldl (fun d p => dictSet d p AnalysisStatus.pending) []) }

/-- The job-status recomputation of `JobService.update_job_file_status`
(lines 103–114), as a function of the list `file_statuses` of the current
per-file statuses. -/
def computeJobStatus (file_statuses : List AnalysisStatus) : AnalysisStatus :=
  if file_statuses.all (fun s => s == AnalysisStatus.analyzed) then
    AnalysisStatus.analyzed
  else if file_statuses.any (fun s => s == AnalysisStatus.in_process) then
    AnalysisStatus.in_process
  else if file_statuses.any (fun s => s == AnalysisStatus.error) then
    if file_statuses.all
        (fun s => s == AnalysisStatus.analyzed || s == AnalysisStatus.error) then
      AnalysisStatus.error
    else
      AnalysisStatus.in_process
  else
    AnalysisStatus.pending

/-- Operation `JobService.update_job_file_status`.  Python's `if error_message:` is
truthiness: `None` and the empty string both leave `job.error_message`
untouched. -/
def update_job_file_status (s : JobServiceState) (job_id file_path : String)
    (status : AnalysisStatus) (error_message : Option String) :
    JobServiceState :=
  match dictGet s.jobs job_id with
  | none => s
  | some job =>
    let previous_status :=
      dictGet ((dictGet s.job_file_status job_id).getD []) file_path
    let m0 := (dictGet s.job_file_status job_id).getD []
    let m1 := dictSet m0 file_path status
    let files_processed :=
      if status = AnalysisStatus.analyzed ∧
          previous_status ≠ some AnalysisStatus.analyzed then
        job.files_processed + 1
      else job.files_processed
    let files_failed :=
      if status = AnalysisStatus.error ∧
          previous_status ≠ some AnalysisStatus.error then
        job.files_failed + 1
      else job.files_failed
    let new_status := computeJobStatus (dictValues m1)
    let new_error :=
      match error_message with
      | some msg => if msg ≠ "" then some msg else job.error_message
      | none => job.error_message
    let job1 : JobInfo :=
      { job with
        files_processed := files_processed
        files_failed := files_failed
        status := new_status
        error_message := new_error }
    { s with
      jobs := dictSet s.jobs job_id job1
      job_file_status := dictSet s.job_file_status job_id m1 }

/-- One `update_job_file_status` call, as data. -/
structure UpdateCall : Type where
  job_id : String
  file_path : String
  status : AnalysisStatus
  error_message : Option String
deriving DecidableEq, Repr

/-- A sequence of `update_job_file_status` calls, applied in order. -/
def runUpdates (s : JobServiceState) (us : List UpdateCall) : JobServiceState :=
  us.foldl
    (fun t u => update_job_file_status t u.job_id u.file_path u.status u.error_message)
    s

/-- The spec's aggregation rule, stated exactly as written: (1) if S is
non-empty and every element is Analyzed → Analyzed; (2) else if any element is
InProcess → InProcess; (3) else if any element is Error: Error when every
element is Analyzed or Error, else InProcess; (4) else Pending. -/
def specAggregate (l : List AnalysisStatus) : AnalysisStatus :=
  if !l.isEmpty && l.all (fun s => s == AnalysisStatus.analyzed) then
    AnalysisStatus.analyzed
  else if l.any (fun s => s == AnalysisStatus.in_process) then
    AnalysisStatus.in_process
  else if l.any (fun s => s == AnalysisStatus.error) then
    if l.all (fun s => s == AnalysisStatus.analyzed || s == AnalysisStatus.error) then
      AnalysisStatus.error
    else
      AnalysisStatus.in_process
  else
    AnalysisStatus.pending

/-- Projection: the aggregate status of job `jid` in state `s`. -/
def jobStatusOf (s : JobServiceState) (jid : String) : Option AnalysisStatus :=
  (dictGet s.jobs jid).map JobInfo.status

/-- Projection: the per-file status of `p` inside job `jid`. -/
def fileStatusOf (s : JobServiceState) (jid p : String) : Option AnalysisStatus :=
  dictGet ((dictGet s.job_file_status jid).getD []) p

/-- Projection: the per-file status value list of job `jid`. -/
def fileStatusesOf (s : JobServiceState) (jid : String) : List AnalysisStatus :=
  dictValues ((dictGet s.job_file_status jid).getD [])

/-- Projection: the tracked file-path key set of job `jid`. -/
def fileKeysOf (s : JobServiceState) (jid : String) : List String :=
  dictKeys ((dictGet s.job_file_status jid).getD [])

/-- Projection: the `files_processed` counter of job `jid`. -/
def processedOf (s : JobServiceState) (jid : String) : Option Nat :=
  (dictGet s.jobs jid).map JobInfo.files_processed

/-- Projection: the `files_failed` counter of job `jid`. -/
def failedOf (s : JobServiceState) (jid : String) : Option Nat :=
  (dictGet s.jobs jid).map JobInfo.files_failed

/-! ### Analysis service (backend/services/analysis_service.py) -/

/-- Paths are modelled as opaque absolute strings, so pathlib's
`Path.absolute()` (external library code) is the identity on them. -/
def pathAbsolute (p : String) : String := p

/-- One queue element `(job_id, root_path, file_path, rel_path)`; `rel_path`
was computed at enqueue time by `file_path.relative_to(root_path)`. -/
structure QueueEntry : Type where
  job_id : Option String
  root_path : String
  file_path : String
  rel_path : String
deriving DecidableEq, Repr

/-- The mutable state of `AnalysisService`.  `processing` is a Python set of
`(root_str, rel_path)` keys, modelled as a duplicate-free list; `jobSvc` is
the optional `self.job_service` reference. -/
structure AnalysisState : Type where
  status : List (String × List (String × AnalysisStatus))
  errors : List (String × List (String × String))
  queue : List QueueEntry
  processing : List (String × String)
  jobSvc : Option JobServiceState
deriving DecidableEq, Repr

/-- Python `self.processing.add(key)` (set add). -/
def setAdd (l : List (String × String)) (k : String × String) :
    List (String × String) :=
  if k ∈ l then l else k :: l

/-- Python `self.processing.discard(key)` (removes the first occurrence, no-op when
absent). -/
def setDiscard : List (String × String) → (String × String) →
    List (String × String)
  | [], _ => []
  | x :: rest, k => if x = k then rest else x :: setDiscard rest k

/-- The guarded nested status write: `if root_str not in self.status:
self.status[root_str] = {}` followed by `self.status[root_str][rel_path] =
v`.  The later unguarded writes in `process_queue` (lines 131, 143, 157)
have the same effect because the root key was created earlier in the same
iteration. -/
def statusSet (st : List (String × List (String × AnalysisStatus)))
    (root rel : String) (v : AnalysisStatus) :
    List (String × List (String × AnalysisStatus)) :=
  dictSet st root (dictSet ((dictGet st root).getD []) rel v)

/-- The error write of the failure branches: ensure `self.errors[root_str]`
exists, then `self.errors[root_str][rel_path] = msg`. -/
def errorsSet (er : List (String × List (String × String)))
    (root rel msg : String) : List (String × List (String × String)) :=
  dictSet er root (dictSet ((dictGet er root).getD []) rel msg)

/-- The error deletion of the success branch: `if root_str in self.errors and
rel_path in self.errors[root_str]: del self.errors[root_str][rel_path]`. -/
def errorsDel (er : List (String × List (String × String)))
    (root rel : String) : List (String × List (String × String)) :=
  match dictGet er root with
  | none => er
  | some m =>
    if (dictGet m rel).isSome then dictSet er root (dictErase m rel) else er

/-- The source's `if job_id and self.job_service: await
self.job_service.update_job_file_status(...)`.  Python truthiness: `job_id`
must be non-`None` and non-empty. -/
def jobNotify (s : AnalysisState) (job_id : Option String) (rel : String)
    (st : AnalysisStatus) (err : Option String) : AnalysisState :=
  match job_id, s.jobSvc with
  | some jid, some js =>
    if jid ≠ "" then
      { s with jobSvc := some (update_job_file_status js jid rel st err) }
    else s
  | _, _ => s

/-- The three ways the executor call `process_file_for_metadata(file_path,
root_path)` can come back, seen from `process_queue`: a truthy result, a
falsy result, or a raised exception with message `str(e)`. -/
inductive ExtractOutcome : Type
  | ok
  | nullResult
  | exn (msg : String)
deriving DecidableEq, Repr

/-- One iteration of the `while True` body of `AnalysisService.process_queue`
(lines 75–170).  `hasArtifact` is the value the external probe
`has_ruga_metadata(file_path)` returns for the popped entry, and `outcome`
is what the extractor call would do if reached.  Returns the new state and
whether the extractor was actually invoked.  An empty queue is the
sleep-and-retry iteration, which changes nothing. -/
def workerStep (s : AnalysisState) (hasArtifact : Bool)
    (outcome : ExtractOutcome) : AnalysisState × Bool :=
  match s.queue with
  | [] => (s, false)
  | e :: rest =>
    let s0 := { s with queue := rest }
    let rootStr := pathAbsolute e.root_path
    let key := (rootStr, e.rel_path)
    if key ∈ s0.processing then
      (s0, false)
    else if hasArtifact then
      let s1 :=
        { s0 with status := statusSet s0.status rootStr e.rel_path
                              AnalysisStatus.analyzed }
      (jobNotify s1 e.job_id e.rel_path AnalysisStatus.analyzed none, false)
    else
      let s1 :=
        { s0 with
          processing := setAdd s0.processing key
          status := statusSet s0.status rootStr e.rel_path
                      AnalysisStatus.in_process }
      let s2 := jobNotify s1 e.job_id e.rel_path AnalysisStatus.in_process none
      let s3 :=
        match outcome with
        | ExtractOutcome.ok =>
          let sa :=
            { s2 with
              status := statusSet s2.status rootStr e.rel_path
                          AnalysisStatus.analyzed
              errors := errorsDel s2.errors rootStr e.rel_path }
          jobNotify sa e.job_id e.rel_path AnalysisStatus.analyzed none
        | ExtractOutcome.nullResult =>
          let msg := "Processing returned None"
          let sa :=
            { s2 with
              status := statusSet s2.status rootStr e.rel_path
                          AnalysisStatus.error
              errors := errorsSet s2.errors rootStr e.rel_path msg }
          jobNotify sa e.job_id e.rel_path AnalysisStatus.error (some msg)
        | ExtractOutcome.exn msg =>
          let sa :=
            { s2 with
              status := statusSet s2.status rootStr e.rel_path
                          AnalysisStatus.error
              errors := errorsSet s2.errors rootStr e.rel_path msg }
          jobNotify sa e.job_id e.rel_path AnalysisStatus.error (some msg)
      ({ s3 with processing := setDiscard s3.processing key }, true)

/-- Operation `AnalysisService.get_file_status`, as a function of the probe answer
`hasArtifact` (= `has_ruga_metadata(file_path)`) and of the already-computed
keys `rootStr = str(root_path.absolute())` and `relPath =
str(file_path.relative_to(root_path))`. -/
def get_file_status (s : AnalysisState) (rootStr relPath : String)
    (hasArtifact : Bool) : AnalysisStatus × Option String :=
  if hasArtifact then
    (AnalysisStatus.analyzed, none)
  else
    match dictGet s.status rootStr with
    | some m =>
      match dictGet m relPath with
      | some st =>
        let errMsg :=
          if st = AnalysisStatus.error then
            match dictGet s.errors rootStr with
            | some em => dictGet em relPath
            | none => none
          else none
        (st, errMsg)
      | none => (AnalysisStatus.not_found, none)
    | none => (AnalysisStatus.not_found, none)

/-- Projection: the tracked status for `(rootStr, relPath)` in the status
store. -/
def storeStatusOf (s : AnalysisState) (rootStr relPath : String) :
    Option AnalysisStatus :=
  dictGet ((dictGet s.status rootStr).getD []) relPath

/-- Projection: the recorded error message for `(rootStr, relPath)`. -/
def storeErrorOf (s : AnalysisState) (rootStr relPath : String) :
    Option String :=
  dictGet ((dictGet s.errors rootStr).getD []) relPath

/-! ### Lock-acquisition trace of one worker iteration

For the concurrency claim we record the sequence of lock and long-running
events one iteration of `process_queue` performs, read off the `async with
self.lock` blocks of the source. -/

/-- Events of one worker iteration: mutex acquire/release, the idle
`asyncio.sleep(1)`, the queue pop, writes to the status/error maps, the
propagation into the job registry, and the blocking extractor call. -/
inductive LockEvent : Type
  | acquire
  | release
  | sleepIdle
  | popHead
  | storeWrite
  | jobUpdate
  | extractCall
deriving DecidableEq, Repr

/-- The event trace of one iteration of the `while True` body, by the branch
taken.  Note the source's empty-queue branch: `async with self.lock: if not
self.queue: await asyncio.sleep(1); continue` — the sleep happens inside the
lock block, which is released only at the `continue`. -/
def workerIterTrace (queueEmpty inProcessing hasArtifact hasJob : Bool)
    (outcome : ExtractOutcome) : List LockEvent :=
  if queueEmpty then
    [LockEvent.acquire, LockEvent.sleepIdle, LockEvent.release]
  else
    [LockEvent.acquire, LockEvent.popHead, LockEvent.release] ++
    (if inProcessing then []
     else if hasArtifact then
       [LockEvent.acquire, LockEvent.storeWrite, LockEvent.release] ++
       (if hasJob then [LockEvent.jobUpdate] else [])
     else
       [LockEvent.acquire, LockEvent.storeWrite, LockEvent.release] ++
       (if hasJob then [LockEvent.jobUpdate] else []) ++
       [LockEvent.extractCall] ++
       (match outcome with
        | ExtractOutcome.ok =>
          [LockEvent.acquire, LockEvent.storeWrite] ++
          (if hasJob then [LockEvent.jobUpdate] else []) ++ [LockEvent.release]
        | ExtractOutcome.nullResult =>
          [LockEvent.acquire, LockEvent.storeWrite] ++
          (if hasJob then [LockEvent.jobUpdate] else []) ++ [LockEvent.release]
        | ExtractOutcome.exn _ =>
          [LockEvent.acquire, LockEvent.storeWrite, LockEvent.release] ++
          (if hasJob then [LockEvent.jobUpdate] else [])) ++
       [LockEvent.acquire, LockEvent.storeWrite, LockEvent.release])

/-- Pair each event with whether the mutex is held while it happens
(acquire/release events update the held flag). -/
def annotateHeld : Bool → List LockEvent → List (LockEvent × Bool)
  | _, [] => []
  | _, LockEvent.acquire :: rest =>
    (LockEvent.acquire, true) :: annotateHeld true rest
  | _, LockEvent.release :: rest =>
    (LockEvent.release, false) :: annotateHeld false rest
  | held, ev :: rest => (ev, held) :: annotateHeld held rest

/-! ### Concrete fixtures used by the witness theorems -/

/-- A one-file job "j" over root "/r". -/
def sampleJob : JobServiceState :=
  create_job emptyJobService JobType.folder "/r" "/r" ["a"] "j" "t"

/-- A queue entry for file "a" of job "j". -/
def sampleEntry : QueueEntry :=
  { job_id := some "j", root_path := "/r", file_path := "/r/a",
    rel_path := "a" }

/-- An analysis-service state whose queue holds `sampleEntry` and whose job
service tracks `sampleJob`. -/
def sampleAnalysis : AnalysisState :=
  { status := [], errors := [], queue := [sampleEntry], processing := [],
    jobSvc := some sampleJob }

/-- An analysis-service state with a stale tracked Error and a recorded
error message for ("/r", "a"). -/
def staleAnalysis : AnalysisState :=
  { status := [("/r", [("a", AnalysisStatus.error)])],
    errors := [("/r", [("a", "boom")])],
    queue := [], processing := [], jobSvc := none }

/-! ### Job registry invariant

In every reachable registry state, a job's `status` field is exactly the
recomputation of `computeJobStatus` on its current per-file status values
(with the creation-time convention for an empty file set), and the per-file
map has duplicate-free keys. -/

def JInv (s : JobServiceState) : Prop :=
  ∀ jid job, dictGet s.jobs jid = some job →
    ∃ m, dictGet s.job_file_status jid = some m ∧
      (dictKeys m).Nodup ∧
      job.status =
        (if m = [] then AnalysisStatus.pending
         else computeJobStatus (dictValues m))

/-! ### Dictionary lemmas -/

theorem dictGet_dictSet_self {β : Type} (d : List (String × β)) (k : String)
    (v : β) : dictGet (dictSet d k v) k = some v := by
  induction d with
  | nil => simp [dictSet, dictGet]
  | cons hd tl ih =>
    obtain ⟨k', v'⟩ := hd
    by_cases hk : k' = k
    · simp [dictSet, hk, dictGet]
    · simp [dictSet, hk, dictGet, ih]

theorem dictKeys_cons {β : Type} (a : String) (b : β)
    (tl : List (String × β)) : dictKeys ((a, b) :: tl) = a :: dictKeys tl :=
  rfl

theorem dictGet_dictSet_ne {β : Type} (d : List (String × β)) {k k' : String}
    (v : β) (h : k' ≠ k) : dictGet (dictSet d k v) k' = dictGet d k' := by
  have hkk : ¬(k = k') := fun hk => h hk.symm
  induction d with
  | nil => simp [dictSet, dictGet, hkk]
  | cons hd tl ih =>
    obtain ⟨a, b⟩ := hd
    by_cases ha : a = k
    · simp [dictSet, ha, dictGet, hkk]
    · simp only [dictSet, if_neg ha, dictGet]
      by_cases ha' : a = k'
      · simp [ha']
      · simp [ha', ih]

theorem dictSet_ne_nil {β : Type} (d : List (String × β)) (k : String)
    (v : β) : dictSet d k v ≠ [] := by
  cases d with
  | nil => simp [dictSet]
  | cons hd tl =>
    obtain ⟨a, b⟩ := hd
    by_cases ha : a = k <;> simp [dictSet, ha]

theorem mem_dictKeys_iff_isSome {β : Type} (d : List (String × β))
    (k : String) : k ∈ dictKeys d ↔ (dictGet d k).isSome := by
  induction d with
  | nil => simp [dictKeys, dictGet]
  | cons hd tl ih =>
    obtain ⟨a, b⟩ := hd
    by_cases ha : a = k
    · simp [dictKeys, dictGet, ha]
    · simpa [dictKeys, dictGet, ha, Ne.symm ha] using ih

theorem dictKeys_dictSet_of_mem {β : Type} (d : List (String × β))
    {k : String} (v : β) (h : k ∈ dictKeys d) :
    dictKeys (dictSet d k v) = dictKeys d := by
  induction d with
  | nil => simp [dictKeys] at h
  | cons hd tl ih =>
    obtain ⟨a, b⟩ := hd
    by_cases ha : a = k
    · simp [dictSet, ha, dictKeys_cons]
    · have h' : k ∈ dictKeys tl := by
        rcases List.mem_cons.mp (dictKeys_cons a b tl ▸ h) with hk | hk
        · exact absurd hk.symm ha
        · exact hk
      simp only [dictSet, if_neg ha, dictKeys_cons, ih h']

theorem dictKeys_dictSet_of_not_mem {β : Type} (d : List (String × β))
    {k : String} (v : β) (h : k ∉ dictKeys d) :
    dictKeys (dictSet d k v) = dictKeys d ++ [k] := by
  induction d with
  | nil => simp [dictSet, dictKeys]
  | cons hd tl ih =>
    obtain ⟨a, b⟩ := hd
    have ha : ¬(a = k) := fun hak =>
      h (dictKeys_cons a b tl ▸ List.mem_cons.mpr (Or.inl hak.symm))
    have h' : k ∉ dictKeys tl := fun hk =>
      h (dictKeys_cons a b tl ▸ List.mem_cons.mpr (Or.inr hk))
    simp only [dictSet, if_neg ha, dictKeys_cons, ih h', List.cons_append]

theorem dictKeys_nodup_dictSet {β : Type} (d : List (String × β))
    (k : String) (v : β) (h : (dictKeys d).Nodup) :
    (dictKeys (dictSet d k v)).Nodup := by
  by_cases hk : k ∈ dictKeys d
  · rwa [dictKeys_dictSet_of_mem d v hk]
  · rw [dictKeys_dictSet_of_not_mem d v hk]
    simp [List.nodup_append, h, hk]

theorem dictGet_eq_some_of_mem {β : Type} :
    ∀ {d : List (String × β)}, (dictKeys d).Nodup →
      ∀ {k : String} {v : β}, (k, v) ∈ d → dictGet d k = some v := by
  intro d
  induction d with
  | nil => intro _ k v hm; simp at hm
  | cons hd tl ih =>
    obtain ⟨a, b⟩ := hd
    intro h k v hm
    have h' : a ∉ dictKeys tl ∧ (dictKeys tl).Nodup :=
      List.nodup_cons.mp (dictKeys_cons a b tl ▸ h)
    rcases List.mem_cons.mp hm with heq | htl
    · obtain ⟨hk, hv⟩ := Prod.mk.inj heq
      subst hk; subst hv
      simp [dictGet]
    · by_cases ha : a = k
      · subst ha
        exact absurd (List.mem_map_of_mem Prod.fst htl) h'.1
      · simpa [dictGet, ha] using ih h'.2 htl

theorem mem_of_dictGet_eq_some {β : Type} :
    ∀ {d : List (String × β)} {k : String} {v : β},
      dictGet d k = some v → (k, v) ∈ d := by
  intro d
  induction d with
  | nil => intro k v h; simp [dictGet] at h
  | cons hd tl ih =>
    obtain ⟨a, b⟩ := hd
    intro k v h
    by_cases ha : a = k
    · subst ha
      simp [dictGet] at h
      subst h
      exact List.mem_cons_self _ _
    · simp only [dictGet, if_neg ha] at h
      exact List.mem_cons_of_mem _ (ih h)

theorem mem_iff_dictGet_eq_some {β : Type} {d : List (String × β)}
    (h : (dictKeys d).Nodup) (k : String) (v : β) :
    (k, v) ∈ d ↔ dictGet d k = some v :=
  ⟨fun hm => dictGet_eq_some_of_mem h hm, mem_of_dictGet_eq_some⟩

theorem eq_nil_of_dictGet_eq_none {β : Type} {d : List (String × β)}
    (h : ∀ k, dictGet d k = none) : d = [] := by
  cases d with
  | nil => rfl
  | cons hd tl =>
    obtain ⟨a, b⟩ := hd
    have := h a
    simp [dictGet] at this

theorem perm_of_dictGet_eq {β : Type} [DecidableEq β]
    {d₁ d₂ : List (String × β)}
    (h₁ : (dictKeys d₁).Nodup) (h₂ : (dictKeys d₂).Nodup)
    (h : ∀ k, dictGet d₁ k = dictGet d₂ k) : d₁.Perm d₂ := by
  apply List.perm_of_nodup_nodup_toFinset_eq (h₁.of_map _) (h₂.of_map _)
  ext x
  obtain ⟨k, v⟩ := x
  simp only [List.mem_toFinset]
  rw [mem_iff_dictGet_eq_some h₁, mem_iff_dictGet_eq_some h₂, h k]

theorem dictValues_perm_of_dictGet_eq {β : Type} [DecidableEq β]
    {d₁ d₂ : List (String × β)}
    (h₁ : (dictKeys d₁).Nodup) (h₂ : (dictKeys d₂).Nodup)
    (h : ∀ k, dictGet d₁ k = dictGet d₂ k) :
    (dictValues d₁).Perm (dictValues d₂) :=
  (perm_of_dictGet_eq h₁ h₂ h).map Prod.snd

theorem dictValues_ne_nil {β : Type} {d : List (String × β)} (h : d ≠ []) :
    dictValues d ≠ [] := by
  cases d with
  | nil => exact absurd rfl h
  | cons hd tl => simp [dictValues]

theorem dictValues_cons {β : Type} (a : String) (b : β)
    (tl : List (String × β)) :
    dictValues ((a, b) :: tl) = b :: dictValues tl :=
  rfl

theorem dictSet_cons_eq {β : Type} {a k : String} (b v : β)
    (tl : List (String × β)) (h : a = k) :
    dictSet ((a, b) :: tl) k v = (k, v) :: tl := by
  simp [dictSet, h]

theorem dictSet_cons_ne {β : Type} {a k : String} (b v : β)
    (tl : List (String × β)) (h : ¬(a = k)) :
    dictSet ((a, b) :: tl) k v = (a, b) :: dictSet tl k v := by
  simp [dictSet, h]

theorem mem_dictValues_dictSet {β : Type} {d : List (String × β)}
    {k : String} {v x : β} (hx : x ∈ dictValues (dictSet d k v)) :
    x = v ∨ x ∈ dictValues d := by
  induction d with
  | nil =>
    left
    simpa [dictSet, dictValues] using hx
  | cons hd tl ih =>
    obtain ⟨a, b⟩ := hd
    by_cases ha : a = k
    · rw [dictSet_cons_eq b v tl ha, dictValues_cons] at hx
      rcases List.mem_cons.mp hx with hx | hx
      · exact Or.inl hx
      · exact Or.inr (dictValues_cons a b tl ▸ List.mem_cons.mpr (Or.inr hx))
    · rw [dictSet_cons_ne b v tl ha, dictValues_cons] at hx
      rcases List.mem_cons.mp hx with hx | hx
      · exact Or.inr (dictValues_cons a b tl ▸ List.mem_cons.mpr (Or.inl hx))
      · rcases ih hx with h | h
        · exact Or.inl h
        · exact Or.inr (dictValues_cons a b tl ▸ List.mem_cons.mpr (Or.inr h))

/-! ### Aggregation lemmas -/

theorem all_congr_of_perm {l₁ l₂ : List AnalysisStatus}
    (p : AnalysisStatus → Bool) (h : l₁.Perm l₂) : l₁.all p = l₂.all p := by
  rw [Bool.eq_iff_iff, List.all_eq_true, List.all_eq_true]
  exact ⟨fun H x hx => H x (h.mem_iff.mpr hx),
         fun H x hx => H x (h.mem_iff.mp hx)⟩

theorem any_congr_of_perm {l₁ l₂ : List AnalysisStatus}
    (p : AnalysisStatus → Bool) (h : l₁.Perm l₂) : l₁.any p = l₂.any p := by
  rw [Bool.eq_iff_iff, List.any_eq_true, List.any_eq_true]
  exact ⟨fun ⟨x, hx, hp⟩ => ⟨x, h.mem_iff.mp hx, hp⟩,
         fun ⟨x, hx, hp⟩ => ⟨x, h.mem_iff.mpr hx, hp⟩⟩

/-- The aggregation is a function of the status multiset only. -/
theorem computeJobStatus_perm {l₁ l₂ : List AnalysisStatus}
    (h : l₁.Perm l₂) : computeJobStatus l₁ = computeJobStatus l₂ := by
  unfold computeJobStatus
  rw [all_congr_of_perm _ h, any_congr_of_perm _ h, any_congr_of_perm _ h,
    all_congr_of_perm _ h]

/-- On a non-empty status list, the source's aggregation (lines 104–114 of
job_service.py) coincides with the spec's rule, including its explicit
non-emptiness condition in step 1. -/
theorem computeJobStatus_eq_specAggregate {l : List AnalysisStatus}
    (h : l ≠ []) : computeJobStatus l = specAggregate l := by
  cases l with
  | nil => exact absurd rfl h
  | cons a tl => simp [computeJobStatus, specAggregate]

theorem computeJobStatus_of_all_pending {l : List AnalysisStatus}
    (hne : l ≠ []) (h : ∀ x ∈ l, x = AnalysisStatus.pending) :
    computeJobStatus l = AnalysisStatus.pending := by
  obtain ⟨a, ha⟩ := List.exists_mem_of_ne_nil l hne
  have h1 : l.all (fun s => s == AnalysisStatus.analyzed) = false := by
    refine Bool.eq_false_iff.mpr fun H => ?_
    have := List.all_eq_true.mp H a ha
    rw [h a ha] at this
    simp at this
  have h2 : l.any (fun s => s == AnalysisStatus.in_process) = false := by
    refine Bool.eq_false_iff.mpr fun H => ?_
    obtain ⟨x, hx, hb⟩ := List.any_eq_true.mp H
    rw [h x hx] at hb
    simp at hb
  have h3 : l.any (fun s => s == AnalysisStatus.error) = false := by
    refine Bool.eq_false_iff.mpr fun H => ?_
    obtain ⟨x, hx, hb⟩ := List.any_eq_true.mp H
    rw [h x hx] at hb
    simp at hb
  simp [computeJobStatus, h1, h2, h3]

theorem dictKeys_nodup_foldl_pending (paths : List String) :
    ∀ d : List (String × AnalysisStatus), (dictKeys d).Nodup →
      (dictKeys
        (paths.foldl (fun t p => dictSet t p AnalysisStatus.pending) d)).Nodup := by
  induction paths with
  | nil => intro d hd; simpa using hd
  | cons p ps ih =>
    intro d hd
    exact ih _ (dictKeys_nodup_dictSet d p _ hd)

theorem dictValues_foldl_pending (paths : List String) :
    ∀ d : List (String × AnalysisStatus),
      (∀ x ∈ dictValues d, x = AnalysisStatus.pending) →
      ∀ x ∈ dictValues
        (paths.foldl (fun t p => dictSet t p AnalysisStatus.pending) d),
        x = AnalysisStatus.pending := by
  induction paths with
  | nil => intro d hd; simpa using hd
  | cons p ps ih =>
    intro d hd
    refine ih _ fun x hx => ?_
    rcases mem_dictValues_dictSet hx with h | h
    · exact h
    · exact hd x h

theorem JInv_empty : JInv emptyJobService := by
  intro jid job h
  simp [emptyJobService, dictGet] at h

theorem JInv_create (s : JobServiceState) (jt : JobType) (rp tp : String)
    (paths : List String) (jid0 ca : String) (hs : JInv s) :
    JInv (create_job s jt rp tp paths jid0 ca) := by
  intro jid job h
  simp only [create_job] at h ⊢
  by_cases hj : jid = jid0
  · subst hj
    rw [dictGet_dictSet_self] at h
    injection h with h
    subst h
    refine ⟨paths.foldl (fun d p => dictSet d p AnalysisStatus.pending) [],
      dictGet_dictSet_self .., dictKeys_nodup_foldl_pending paths []
        (by simp [dictKeys]), ?_⟩
    by_cases hm :
        paths.foldl (fun d p => dictSet d p AnalysisStatus.pending) [] = []
    · simp [hm]
    · rw [if_neg hm]
      exact (computeJobStatus_of_all_pending (dictValues_ne_nil hm)
        (dictValues_foldl_pending paths [] (by simp [dictValues]))).symm
  · rw [dictGet_dictSet_ne _ _ hj] at h
    obtain ⟨m, hm1, hm2, hm3⟩ := hs jid job h
    exact ⟨m, by rw [dictGet_dictSet_ne _ _ hj]; exact hm1, hm2, hm3⟩

theorem JInv_update (s : JobServiceState) (jid0 p : String)
    (st : AnalysisStatus) (err : Option String) (hs : JInv s) :
    JInv (update_job_file_status s jid0 p st err) := by
  cases hjob : dictGet s.jobs jid0 with
  | none =>
    intro jid job h
    simp only [update_job_file_status, hjob] at h ⊢
    exact hs jid job h
  | some job0 =>
    intro jid job h
    simp only [update_job_file_status, hjob] at h ⊢
    by_cases hj : jid = jid0
    · subst hj
      rw [dictGet_dictSet_self] at h
      injection h with h
      subst h
      obtain ⟨m0, hm0, hnodup, _⟩ := hs jid job0 hjob
      simp only [hm0, Option.getD_some]
      refine ⟨dictSet m0 p st, dictGet_dictSet_self ..,
        dictKeys_nodup_dictSet m0 p st hnodup, ?_⟩
      rw [if_neg (dictSet_ne_nil m0 p st)]
    · rw [dictGet_dictSet_ne _ _ hj] at h
      obtain ⟨m, hm1, hm2, hm3⟩ := hs jid job h
      exact ⟨m, by rw [dictGet_dictSet_ne _ _ hj]; exact hm1, hm2, hm3⟩

theorem runUpdates_nil (s : JobServiceState) : runUpdates s [] = s := rfl

theorem runUpdates_cons (s : JobServiceState) (u : UpdateCall)
    (us : List UpdateCall) :
    runUpdates s (u :: us) =
      runUpdates
        (update_job_file_status s u.job_id u.file_path u.status
          u.error_message) us :=
  rfl

theorem JInv_runUpdates (us : List UpdateCall) :
    ∀ s : JobServiceState, JInv s → JInv (runUpdates s us) := by
  induction us with
  | nil => intro s hs; exact hs
  | cons u us ih =>
    intro s hs
    rw [runUpdates_cons]
    exact ih _ (JInv_update s u.job_id u.file_path u.status u.error_message hs)

theorem jobs_isSome_update (s : JobServiceState) (jid0 p : String)
    (st : AnalysisStatus) (err : Option String) (jid : String) :
    (dictGet (update_job_file_status s jid0 p st err).jobs jid).isSome =
      (dictGet s.jobs jid).isSome := by
  cases hjob : dictGet s.jobs jid0 with
  | none => simp only [update_job_file_status, hjob]
  | some job0 =>
    simp only [update_job_file_status, hjob]
    by_cases hj : jid = jid0
    · subst hj
      simp [dictGet_dictSet_self, hjob]
    · rw [dictGet_dictSet_ne _ _ hj]

theorem jobs_isSome_runUpdates (us : List UpdateCall) :
    ∀ (s : JobServiceState) (jid : String),
      (dictGet (runUpdates s us).jobs jid).isSome =
        (dictGet s.jobs jid).isSome := by
  induction us with
  | nil => intro s jid; rfl
  | cons u us ih =>
    intro s jid
    rw [runUpdates_cons, ih, jobs_isSome_update]

/-- Two invariant-satisfying registry states whose per-file status lookups
agree on a job have the same aggregate status for that job. -/
theorem jobStatus_eq_of_fileStatus_eq {s₁ s₂ : JobServiceState}
    (jid : String) (h₁ : JInv s₁) (h₂ : JInv s₂)
    (hb : (dictGet s₁.jobs jid).isSome = (dictGet s₂.jobs jid).isSome)
    (hf : ∀ p, fileStatusOf s₁ jid p = fileStatusOf s₂ jid p) :
    jobStatusOf s₁ jid = jobStatusOf s₂ jid := by
  cases hj₁ : dictGet s₁.jobs jid with
  | none =>
    have hn₂ : dictGet s₂.jobs jid = none := by
      rw [hj₁] at hb
      cases hx : dictGet s₂.jobs jid with
      | none => rfl
      | some j => rw [hx] at hb; simp at hb
    simp [jobStatusOf, hj₁, hn₂]
  | some j₁ =>
    have hj₂ : ∃ j₂, dictGet s₂.jobs jid = some j₂ := by
      rw [hj₁] at hb
      cases hx : dictGet s₂.jobs jid with
      | none => rw [hx] at hb; simp at hb
      | some j => exact ⟨j, rfl⟩
    obtain ⟨j₂, hj₂⟩ := hj₂
    obtain ⟨m₁, hm₁, hn₁, hst₁⟩ := h₁ jid j₁ hj₁
    obtain ⟨m₂, hm₂, hn₂, hst₂⟩ := h₂ jid j₂ hj₂
    have hmf : ∀ p, dictGet m₁ p = dictGet m₂ p := by
      intro p
      have hp := hf p
      rw [fileStatusOf, fileStatusOf, hm₁, hm₂] at hp
      simpa using hp
    have hstatus : j₁.status = j₂.status := by
      by_cases he : m₁ = []
      · have he₂ : m₂ = [] :=
          eq_nil_of_dictGet_eq_none fun k => by rw [← hmf k, he]; rfl
        rw [hst₁, hst₂, he, he₂]
      · have he₂ : m₂ ≠ [] := fun h2 =>
          he (eq_nil_of_dictGet_eq_none fun k => by rw [hmf k, h2]; rfl)
        rw [hst₁, hst₂, if_neg he, if_neg he₂]
        exact computeJobStatus_perm (dictValues_perm_of_dictGet_eq hn₁ hn₂ hmf)
    simp [jobStatusOf, hj₁, hj₂, hstatus]

theorem mem_dictKeys_dictSet {β : Type} (d : List (String × β))
    (k q : String) (v : β) (h : q ∈ dictKeys d) :
    q ∈ dictKeys (dictSet d k v) := by
  by_cases hk : k ∈ dictKeys d
  · rwa [dictKeys_dictSet_of_mem d v hk]
  · rw [dictKeys_dictSet_of_not_mem d v hk]
    exact List.mem_append_left _ h

theorem dictGet_eq_none_of_not_mem {β : Type} {d : List (String × β)}
    {k : String} (h : k ∉ dictKeys d) : dictGet d k = none := by
  cases hx : dictGet d k with
  | none => rfl
  | some v =>
    exact absurd ((mem_dictKeys_iff_isSome d k).mpr (by rw [hx]; rfl)) h

theorem dictGet_dictErase_self {β : Type} {d : List (String × β)}
    (h : (dictKeys d).Nodup) (k : String) :
    dictGet (dictErase d k) k = none := by
  induction d with
  | nil => rfl
  | cons hd tl ih =>
    obtain ⟨a, b⟩ := hd
    have h' : a ∉ dictKeys tl ∧ (dictKeys tl).Nodup :=
      List.nodup_cons.mp (dictKeys_cons a b tl ▸ h)
    by_cases ha : a = k
    · subst ha
      simp only [dictErase, if_pos rfl]
      exact dictGet_eq_none_of_not_mem h'.1
    · simp only [dictErase, if_neg ha, dictGet, if_neg ha]
      exact ih h'.2

/-! ### Analysis-service lemmas -/

@[simp] theorem jobNotify_status (s : AnalysisState) (jo : Option String)
    (rel : String) (st : AnalysisStatus) (err : Option String) :
    (jobNotify s jo rel st err).status = s.status := by
  rcases jo with _ | jid <;> rcases hs : s.jobSvc with _ | js <;>
    simp [jobNotify, hs] <;> by_cases hne : jid = "" <;> simp [hne]

@[simp] theorem jobNotify_errors (s : AnalysisState) (jo : Option String)
    (rel : String) (st : AnalysisStatus) (err : Option String) :
    (jobNotify s jo rel st err).errors = s.errors := by
  rcases jo with _ | jid <;> rcases hs : s.jobSvc with _ | js <;>
    simp [jobNotify, hs] <;> by_cases hne : jid = "" <;> simp [hne]

@[simp] theorem jobNotify_queue (s : AnalysisState) (jo : Option String)
    (rel : String) (st : AnalysisStatus) (err : Option String) :
    (jobNotify s jo rel st err).queue = s.queue := by
  rcases jo with _ | jid <;> rcases hs : s.jobSvc with _ | js <;>
    simp [jobNotify, hs] <;> by_cases hne : jid = "" <;> simp [hne]

@[simp] theorem jobNotify_processing (s : AnalysisState) (jo : Option String)
    (rel : String) (st : AnalysisStatus) (err : Option String) :
    (jobNotify s jo rel st err).processing = s.processing := by
  rcases jo with _ | jid <;> rcases hs : s.jobSvc with _ | js <;>
    simp [jobNotify, hs] <;> by_cases hne : jid = "" <;> simp [hne]

theorem jobNotify_jobSvc_some (s : AnalysisState) (jid rel : String)
    (st : AnalysisStatus) (err : Option String) (js : JobServiceState)
    (hjs : s.jobSvc = some js) (hne : jid ≠ "") :
    (jobNotify s (some jid) rel st err).jobSvc =
      some (update_job_file_status js jid rel st err) := by
  simp [jobNotify, hjs, hne]

theorem statusSet_lookup_self
    (st0 : List (String × List (String × AnalysisStatus)))
    (root rel : String) (v : AnalysisStatus) :
    dictGet ((dictGet (statusSet st0 root rel v) root).getD []) rel =
      some v := by
  simp [statusSet, dictGet_dictSet_self]

theorem errorsSet_lookup_self (er : List (String × List (String × String)))
    (root rel msg : String) :
    dictGet ((dictGet (errorsSet er root rel msg) root).getD []) rel =
      some msg := by
  simp [errorsSet, dictGet_dictSet_self]

theorem errorsDel_lookup_self (er : List (String × List (String × String)))
    (root rel : String)
    (h : (dictKeys ((dictGet er root).getD [])).Nodup) :
    dictGet ((dictGet (errorsDel er root rel) root).getD []) rel = none := by
  unfold errorsDel
  cases hr : dictGet er root with
  | none => simp [hr, dictGet]
  | some m =>
    rw [hr] at h
    simp only [Option.getD_some] at h
    cases hx : dictGet m rel with
    | some v =>
      simp only [hx, Option.isSome_some, if_true]
      simp [dictGet_dictSet_self, dictGet_dictErase_self h]
    | none =>
      simp [hx, hr]

theorem setDiscard_setAdd_not_mem (l : List (String × String))
    (k : String × String) (h : k ∉ l) : setDiscard (setAdd l k) k = l := by
  simp [setAdd, h, setDiscard]

theorem fileStatusOf_update_self (js : JobServiceState) (jid p : String)
    (st : AnalysisStatus) (err : Option String)
    (h : (dictGet js.jobs jid).isSome) :
    fileStatusOf (update_job_file_status js jid p st err) jid p = some st := by
  obtain ⟨job, hjob⟩ := Option.isSome_iff_exists.mp h
  simp only [fileStatusOf, update_job_file_status, hjob,
    dictGet_dictSet_self, Option.getD_some]

/-- The artifact fast path of one worker iteration, as a step equation. -/
theorem workerStep_artifact (s : AnalysisState) (e : QueueEntry)
    (rest : List QueueEntry) (outcome : ExtractOutcome)
    (hq : s.queue = e :: rest)
    (hproc : (pathAbsolute e.root_path, e.rel_path) ∉ s.processing) :
    workerStep s true outcome =
      (jobNotify
        { s with
          queue := rest
          status := statusSet s.status (pathAbsolute e.root_path) e.rel_path
                      AnalysisStatus.analyzed }
        e.job_id e.rel_path AnalysisStatus.analyzed none, false) := by
  simp [workerStep, hq, hproc]

/-! ### Claims -/

/-- C1: on every `update_job_file_status` call to an existing job, the
job-level status is recomputed from scratch as a pure function of the
current multiset of per-file statuses, following exactly the spec's
four-step rule (the snapshot is non-empty, so the rules coincide with the
source's recomputation); consequently any two sequences of
`update_file_status` calls on the same job that end with the same per-file
status for every path yield an identical `job.status`. -/
theorem C1_job_status_recomputed_order_independent :
    (∀ (s : JobServiceState) (jid p : String) (st : AnalysisStatus)
        (err : Option String), (dictGet s.jobs jid).isSome →
        fileStatusesOf (update_job_file_status s jid p st err) jid ≠ [] ∧
        jobStatusOf (update_job_file_status s jid p st err) jid =
          some (specAggregate
            (fileStatusesOf (update_job_file_status s jid p st err) jid))) ∧
    (∀ (jt : JobType) (rp tp : String) (paths : List String)
        (jid0 ca : String) (us₁ us₂ : List UpdateCall),
        (∀ p, fileStatusOf
            (runUpdates (create_job emptyJobService jt rp tp paths jid0 ca)
              us₁) jid0 p =
          fileStatusOf
            (runUpdates (create_job emptyJobService jt rp tp paths jid0 ca)
              us₂) jid0 p) →
        jobStatusOf
            (runUpdates (create_job emptyJobService jt rp tp paths jid0 ca)
              us₁) jid0 =
          jobStatusOf
            (runUpdates (create_job emptyJobService jt rp tp paths jid0 ca)
              us₂) jid0) := by
  constructor
  · intro s jid p st err hsome
    obtain ⟨job, hjob⟩ := Option.isSome_iff_exists.mp hsome
    have hm1ne : dictSet ((dictGet s.job_file_status jid).getD []) p st ≠ [] :=
      dictSet_ne_nil _ _ _
    constructor
    · simp only [fileStatusesOf, update_job_file_status, hjob,
        dictGet_dictSet_self, Option.getD_some]
      exact dictValues_ne_nil hm1ne
    · simp only [jobStatusOf, fileStatusesOf, update_job_file_status, hjob,
        dictGet_dictSet_self, Option.getD_some, Option.map_some']
      rw [computeJobStatus_eq_specAggregate (dictValues_ne_nil hm1ne)]
  · intro jt rp tp paths jid0 ca us₁ us₂ hf
    have hs₀ : JInv (create_job emptyJobService jt rp tp paths jid0 ca) :=
      JInv_create _ _ _ _ _ _ _ JInv_empty
    refine jobStatus_eq_of_fileStatus_eq jid0 (JInv_runUpdates us₁ _ hs₀)
      (JInv_runUpdates us₂ _ hs₀) ?_ hf
    rw [jobs_isSome_runUpdates, jobs_isSome_runUpdates]

/-- Witness for C1: a two-file job updated in the two opposite orders
(success on "a.txt", error on "b.txt") reaches the same job status, and a
single update to an existing job recomputes per the spec rule. -/
theorem C1_witness :
    (fileStatusesOf
        (update_job_file_status
          (create_job emptyJobService JobType.folder "/r" "/r"
            ["a.txt", "b.txt"] "j" "t")
          "j" "a.txt" AnalysisStatus.analyzed none) "j" ≠ [] ∧
      jobStatusOf
          (update_job_file_status
            (create_job emptyJobService JobType.folder "/r" "/r"
              ["a.txt", "b.txt"] "j" "t")
            "j" "a.txt" AnalysisStatus.analyzed none) "j" =
        some (specAggregate
          (fileStatusesOf
            (update_job_file_status
              (create_job emptyJobService JobType.folder "/r" "/r"
                ["a.txt", "b.txt"] "j" "t")
              "j" "a.txt" AnalysisStatus.analyzed none) "j"))) ∧
    jobStatusOf
        (runUpdates
          (create_job emptyJobService JobType.folder "/r" "/r"
            ["a.txt", "b.txt"] "j" "t")
          [⟨"j", "a.txt", AnalysisStatus.analyzed, none⟩,
           ⟨"j", "b.txt", AnalysisStatus.error, some "boom"⟩]) "j" =
      jobStatusOf
        (runUpdates
          (create_job emptyJobService JobType.folder "/r" "/r"
            ["a.txt", "b.txt"] "j" "t")
          [⟨"j", "b.txt", AnalysisStatus.error, some "boom"⟩,
           ⟨"j", "a.txt", AnalysisStatus.analyzed, none⟩]) "j" :=
  ⟨C1_job_status_recomputed_order_independent.1
      (create_job emptyJobService JobType.folder "/r" "/r"
        ["a.txt", "b.txt"] "j" "t")
      "j" "a.txt" AnalysisStatus.analyzed none (by decide),
    C1_job_status_recomputed_order_independent.2 JobType.folder "/r" "/r"
      ["a.txt", "b.txt"] "j" "t"
      [⟨"j", "a.txt", AnalysisStatus.analyzed, none⟩,
       ⟨"j", "b.txt", AnalysisStatus.error, some "boom"⟩]
      [⟨"j", "b.txt", AnalysisStatus.error, some "boom"⟩,
       ⟨"j", "a.txt", AnalysisStatus.analyzed, none⟩]
      (fun p => rfl)⟩

/-- C4: calling `update_file_status` with an unknown `job_id` is a complete
no-op — it returns normally and leaves the entire registry state (every job
record, per-file mapping and counter) unchanged. -/
theorem C4_unknown_job_update_noop :
    ∀ (s : JobServiceState) (jid p : String) (st : AnalysisStatus)
      (err : Option String), dictGet s.jobs jid = none →
      update_job_file_status s jid p st err = s := by
  intro s jid p st err h
  simp only [update_job_file_status, h]

/-- Witness for C4: an update against an empty registry changes nothing. -/
theorem C4_witness :
    update_job_file_status emptyJobService "nope" "a.txt"
        AnalysisStatus.analyzed (some "boom") = emptyJobService :=
  C4_unknown_job_update_noop emptyJobService "nope" "a.txt"
    AnalysisStatus.analyzed (some "boom") (by decide)

/-- C10: `create_job` initializes `files_processed` and `files_failed` to
zero, and `update_job_file_status` (the only mutating registry operation
besides creation) never decreases either counter of any job, whatever
status transition it applies. -/
theorem C10_counters_monotone :
    (∀ (s : JobServiceState) (jt : JobType) (rp tp : String)
        (paths : List String) (jid ca : String),
        processedOf (create_job s jt rp tp paths jid ca) jid = some 0 ∧
        failedOf (create_job s jt rp tp paths jid ca) jid = some 0) ∧
    (∀ (s : JobServiceState) (jid0 p : String) (st : AnalysisStatus)
        (err : Option String) (jid : String) (n m : Nat),
        processedOf s jid = some n →
        processedOf (update_job_file_status s jid0 p st err) jid = some m →
        n ≤ m) ∧
    (∀ (s : JobServiceState) (jid0 p : String) (st : AnalysisStatus)
        (err : Option String) (jid : String) (n m : Nat),
        failedOf s jid = some n →
        failedOf (update_job_file_status s jid0 p st err) jid = some m →
        n ≤ m) := by
  refine ⟨?_, ?_, ?_⟩
  · intro s jt rp tp paths jid ca
    constructor <;>
      simp [processedOf, failedOf, create_job, dictGet_dictSet_self]
  · intro s jid0 p st err jid n m hn hm
    cases hjob : dictGet s.jobs jid0 with
    | none =>
      simp only [update_job_file_status, hjob] at hm
      rw [hn] at hm
      injection hm with hm
      omega
    | some job0 =>
      simp only [update_job_file_status, hjob] at hm
      by_cases hj : jid = jid0
      · subst hj
        rw [processedOf, hjob] at hn
        simp only [Option.map_some'] at hn
        injection hn with hn
        rw [processedOf] at hm
        rw [dictGet_dictSet_self] at hm
        simp only [Option.map_some'] at hm
        injection hm with hm
        subst hn
        subst hm
        split
        · exact Nat.le_succ _
        · exact Nat.le_refl _
      · simp only [processedOf] at hm hn
        rw [dictGet_dictSet_ne _ _ hj] at hm
        rw [hm] at hn
        injection hn with hn
        omega
  · intro s jid0 p st err jid n m hn hm
    cases hjob : dictGet s.jobs jid0 with
    | none =>
      simp only [update_job_file_status, hjob] at hm
      rw [hn] at hm
      injection hm with hm
      omega
    | some job0 =>
      simp only [update_job_file_status, hjob] at hm
      by_cases hj : jid = jid0
      · subst hj
        rw [failedOf, hjob] at hn
        simp only [Option.map_some'] at hn
        injection hn with hn
        rw [failedOf] at hm
        rw [dictGet_dictSet_self] at hm
        simp only [Option.map_some'] at hm
        injection hm with hm
        subst hn
        subst hm
        split
        · exact Nat.le_succ _
        · exact Nat.le_refl _
      · simp only [failedOf] at hm hn
        rw [dictGet_dictSet_ne _ _ hj] at hm
        rw [hm] at hn
        injection hn with hn
        omega

/-- Witness for C10: counters start at zero and an Analyzed update moves
`files_processed` from 0 to 1 (0 ≤ 1). -/
theorem C10_witness :
    (processedOf
        (create_job emptyJobService JobType.folder "/r" "/r" ["a"] "j" "t")
        "j" = some 0 ∧
      failedOf
        (create_job emptyJobService JobType.folder "/r" "/r" ["a"] "j" "t")
        "j" = some 0) ∧
    (0 : Nat) ≤ 1 ∧ (0 : Nat) ≤ 0 :=
  ⟨C10_counters_monotone.1 emptyJobService JobType.folder "/r" "/r" ["a"]
      "j" "t",
    C10_counters_monotone.2.1
      (create_job emptyJobService JobType.folder "/r" "/r" ["a"] "j" "t")
      "j" "a" AnalysisStatus.analyzed none "j" 0 1 (by decide) (by decide),
    C10_counters_monotone.2.2
      (create_job emptyJobService JobType.folder "/r" "/r" ["a"] "j" "t")
      "j" "a" AnalysisStatus.analyzed none "j" 0 0 (by decide) (by decide)⟩

/-- Counterexample to C3: `update_job_file_status` called with a path that
is not in the job's creation-time file set adds that path as a new key —
here a job created over the single file "a" ends up with keys ["a", "b"]
after an update for "b". -/
theorem C3_counterexample_key_added :
    fileKeysOf
        (update_job_file_status
          (create_job emptyJobService JobType.folder "/r" "/r" ["a"] "j" "t")
          "j" "b" AnalysisStatus.analyzed none) "j" = ["a", "b"] ∧
    fileKeysOf
        (create_job emptyJobService JobType.folder "/r" "/r" ["a"] "j" "t")
        "j" = ["a"] := by
  decide

/-- C3 amended: `file_statuses` keys are never removed, and an update whose
path is already tracked (in particular any path from the creation-time set)
leaves the key set unchanged; but an update naming a fresh path appends
exactly that path as a new key, so the key set is fixed only under updates
whose paths lie in the existing key set. -/
theorem C3_amended_key_set_behavior :
    (∀ (s : JobServiceState) (jid0 p : String) (st : AnalysisStatus)
        (err : Option String) (jid q : String),
        q ∈ fileKeysOf s jid →
        q ∈ fileKeysOf (update_job_file_status s jid0 p st err) jid) ∧
    (∀ (s : JobServiceState) (jid p : String) (st : AnalysisStatus)
        (err : Option String), (dictGet s.jobs jid).isSome →
        p ∈ fileKeysOf s jid →
        fileKeysOf (update_job_file_status s jid p st err) jid =
          fileKeysOf s jid) ∧
    (∀ (s : JobServiceState) (jid p : String) (st : AnalysisStatus)
        (err : Option String), (dictGet s.jobs jid).isSome →
        p ∉ fileKeysOf s jid →
        fileKeysOf (update_job_file_status s jid p st err) jid =
          fileKeysOf s jid ++ [p]) := by
  refine ⟨?_, ?_, ?_⟩
  · intro s jid0 p st err jid q hq
    cases hjob : dictGet s.jobs jid0 with
    | none => simpa [update_job_file_status, hjob] using hq
    | some job0 =>
      simp only [update_job_file_status, hjob]
      by_cases hj : jid = jid0
      · subst hj
        simp only [fileKeysOf, dictGet_dictSet_self, Option.getD_some]
        exact mem_dictKeys_dictSet _ _ _ _ hq
      · simp only [fileKeysOf, dictGet_dictSet_ne _ _ hj]
        exact hq
  · intro s jid p st err hsome hp
    obtain ⟨job, hjob⟩ := Option.isSome_iff_exists.mp hsome
    simp only [update_job_file_status, hjob, fileKeysOf,
      dictGet_dictSet_self, Option.getD_some]
    exact dictKeys_dictSet_of_mem _ st hp
  · intro s jid p st err hsome hp
    obtain ⟨job, hjob⟩ := Option.isSome_iff_exists.mp hsome
    simp only [update_job_file_status, hjob, fileKeysOf,
      dictGet_dictSet_self, Option.getD_some]
    exact dictKeys_dictSet_of_not_mem _ st hp

/-- Witness for the amended C3 on a concrete one-file job: an update for
the tracked path "a" keeps the key set, an update for the fresh path "b"
appends it. -/
theorem C3_amended_witness :
    "a" ∈ fileKeysOf
        (update_job_file_status
          (create_job emptyJobService JobType.folder "/r" "/r" ["a"] "j" "t")
          "j" "a" AnalysisStatus.error none) "j" ∧
    fileKeysOf
        (update_job_file_status
          (create_job emptyJobService JobType.folder "/r" "/r" ["a"] "j" "t")
          "j" "a" AnalysisStatus.error none) "j" =
      fileKeysOf
        (create_job emptyJobService JobType.folder "/r" "/r" ["a"] "j" "t")
        "j" ∧
    fileKeysOf
        (update_job_file_status
          (create_job emptyJobService JobType.folder "/r" "/r" ["a"] "j" "t")
          "j" "b" AnalysisStatus.error none) "j" =
      fileKeysOf
        (create_job emptyJobService JobType.folder "/r" "/r" ["a"] "j" "t")
        "j" ++ ["b"] :=
  ⟨C3_amended_key_set_behavior.1
      (create_job emptyJobService JobType.folder "/r" "/r" ["a"] "j" "t")
      "j" "a" AnalysisStatus.error none "j" "a" (by decide),
    C3_amended_key_set_behavior.2.1
      (create_job emptyJobService JobType.folder "/r" "/r" ["a"] "j" "t")
      "j" "a" AnalysisStatus.error none (by decide) (by decide),
    C3_amended_key_set_behavior.2.2
      (create_job emptyJobService JobType.folder "/r" "/r" ["a"] "j" "t")
      "j" "b" AnalysisStatus.error none (by decide) (by decide)⟩

/-- Counterexample to C2: a single path "a" reported Analyzed, then Error,
then Analyzed again drives `files_processed` to 2, although the job tracks
exactly one path — so the counter increases by more than one for that path
and exceeds the number of distinct paths that ever reached Analyzed. -/
theorem C2_counterexample_double_count :
    processedOf
        (runUpdates
          (create_job emptyJobService JobType.folder "/r" "/r" ["a"] "j" "t")
          [⟨"j", "a", AnalysisStatus.analyzed, none⟩,
           ⟨"j", "a", AnalysisStatus.error, none⟩,
           ⟨"j", "a", AnalysisStatus.analyzed, none⟩]) "j" = some 2 ∧
    failedOf
        (runUpdates
          (create_job emptyJobService JobType.folder "/r" "/r" ["a"] "j" "t")
          [⟨"j", "a", AnalysisStatus.analyzed, none⟩,
           ⟨"j", "a", AnalysisStatus.error, none⟩,
           ⟨"j", "a", AnalysisStatus.analyzed, none⟩]) "j" = some 1 ∧
    fileKeysOf
        (runUpdates
          (create_job emptyJobService JobType.folder "/r" "/r" ["a"] "j" "t")
          [⟨"j", "a", AnalysisStatus.analyzed, none⟩,
           ⟨"j", "a", AnalysisStatus.error, none⟩,
           ⟨"j", "a", AnalysisStatus.analyzed, none⟩]) "j" = ["a"] := by
  decide

/-- C2 amended: the counters increment exactly on transitions — an update
bumps `files_processed` (resp. `files_failed`) by one precisely when the
new status is Analyzed (resp. Error) and the path's previously recorded
status was not; hence reporting Analyzed twice in a row for the same path
increments `files_processed` only once, but a path that leaves Analyzed
and re-enters it is counted again. -/
theorem C2_amended_increment_on_transition :
    (∀ (s : JobServiceState) (jid p : String) (st : AnalysisStatus)
        (err : Option String) (job : JobInfo), dictGet s.jobs jid = some job →
        processedOf (update_job_file_status s jid p st err) jid =
          some (job.files_processed +
            (if st = AnalysisStatus.analyzed ∧
                fileStatusOf s jid p ≠ some AnalysisStatus.analyzed
             then 1 else 0)) ∧
        failedOf (update_job_file_status s jid p st err) jid =
          some (job.files_failed +
            (if st = AnalysisStatus.error ∧
                fileStatusOf s jid p ≠ some AnalysisStatus.error
             then 1 else 0)) ∧
        fileStatusOf (update_job_file_status s jid p st err) jid p =
          some st) ∧
    (∀ (s : JobServiceState) (jid p : String) (err err' : Option String)
        (job : JobInfo), dictGet s.jobs jid = some job →
        processedOf
            (update_job_file_status
              (update_job_file_status s jid p AnalysisStatus.analyzed err)
              jid p AnalysisStatus.analyzed err') jid =
          processedOf
            (update_job_file_status s jid p AnalysisStatus.analyzed err)
            jid) := by
  have hA : ∀ (s : JobServiceState) (jid p : String) (st : AnalysisStatus)
      (err : Option String) (job : JobInfo), dictGet s.jobs jid = some job →
      processedOf (update_job_file_status s jid p st err) jid =
        some (job.files_processed +
          (if st = AnalysisStatus.analyzed ∧
              fileStatusOf s jid p ≠ some AnalysisStatus.analyzed
           then 1 else 0)) ∧
      failedOf (update_job_file_status s jid p st err) jid =
        some (job.files_failed +
          (if st = AnalysisStatus.error ∧
              fileStatusOf s jid p ≠ some AnalysisStatus.error
           then 1 else 0)) ∧
      fileStatusOf (update_job_file_status s jid p st err) jid p =
        some st := by
    intro s jid p st err job hjob
    refine ⟨?_, ?_, ?_⟩
    · by_cases hC : st = AnalysisStatus.analyzed ∧
          fileStatusOf s jid p ≠ some AnalysisStatus.analyzed
      · simp only [processedOf, update_job_file_status, hjob,
          dictGet_dictSet_self, Option.map_some']
        rw [if_pos (by simpa [fileStatusOf] using hC)]
        simp [hC]
      · simp only [processedOf, update_job_file_status, hjob,
          dictGet_dictSet_self, Option.map_some']
        rw [if_neg (by simpa [fileStatusOf] using hC)]
        simp [hC]
    · by_cases hC : st = AnalysisStatus.error ∧
          fileStatusOf s jid p ≠ some AnalysisStatus.error
      · simp only [failedOf, update_job_file_status, hjob,
          dictGet_dictSet_self, Option.map_some']
        rw [if_pos (by simpa [fileStatusOf] using hC)]
        simp [hC]
      · simp only [failedOf, update_job_file_status, hjob,
          dictGet_dictSet_self, Option.map_some']
        rw [if_neg (by simpa [fileStatusOf] using hC)]
        simp [hC]
    · simp only [fileStatusOf, update_job_file_status, hjob,
        dictGet_dictSet_self, Option.getD_some]
  refine ⟨hA, ?_⟩
  intro s jid p err err' job hjob
  obtain ⟨h1p, _, h1s⟩ := hA s jid p AnalysisStatus.analyzed err job hjob
  have hj1 : ∃ job1,
      dictGet
        (update_job_file_status s jid p AnalysisStatus.analyzed err).jobs
        jid = some job1 := by
    have hb := jobs_isSome_update s jid p AnalysisStatus.analyzed err jid
    rw [hjob] at hb
    exact Option.isSome_iff_exists.mp (by rw [hb]; rfl)
  obtain ⟨job1, hj1⟩ := hj1
  obtain ⟨h2p, _, _⟩ :=
    hA _ jid p AnalysisStatus.analyzed err' job1 hj1
  rw [h2p, h1s]
  simp [processedOf, hj1]

/-- Witness for the amended C2 on a concrete job: the first Analyzed
report for "a" bumps `files_processed` to 1, and a second consecutive
Analyzed report leaves it at 1. -/
theorem C2_amended_witness :
    (processedOf
        (update_job_file_status
          (create_job emptyJobService JobType.folder "/r" "/r" ["a"] "j" "t")
          "j" "a" AnalysisStatus.analyzed none) "j" = some (0 + 1) ∧
      failedOf
        (update_job_file_status
          (create_job emptyJobService JobType.folder "/r" "/r" ["a"] "j" "t")
          "j" "a" AnalysisStatus.analyzed none) "j" = some (0 + 0) ∧
      fileStatusOf
        (update_job_file_status
          (create_job emptyJobService JobType.folder "/r" "/r" ["a"] "j" "t")
          "j" "a" AnalysisStatus.analyzed none) "j" "a" =
        some AnalysisStatus.analyzed) ∧
    processedOf
        (update_job_file_status
          (update_job_file_status
            (create_job emptyJobService JobType.folder "/r" "/r" ["a"] "j"
              "t")
            "j" "a" AnalysisStatus.analyzed none)
          "j" "a" AnalysisStatus.analyzed none) "j" =
      processedOf
        (update_job_file_status
          (create_job emptyJobService JobType.folder "/r" "/r" ["a"] "j" "t")
          "j" "a" AnalysisStatus.analyzed none) "j" := by
  constructor
  · have h := C2_amended_increment_on_transition.1
      (create_job emptyJobService JobType.folder "/r" "/r" ["a"] "j" "t")
      "j" "a" AnalysisStatus.analyzed none
      { job_id := "j", job_type := JobType.folder, root_path := "/r",
        target_path := "/r", status := AnalysisStatus.pending,
        files_queued := 1, files_processed := 0, files_failed := 0,
        created_at := "t", error_message := none } (by decide)
    simpa using h
  · exact C2_amended_increment_on_transition.2
      (create_job emptyJobService JobType.folder "/r" "/r" ["a"] "j" "t")
      "j" "a" none none
      { job_id := "j", job_type := JobType.folder, root_path := "/r",
        target_path := "/r", status := AnalysisStatus.pending,
        files_queued := 1, files_processed := 0, files_failed := 0,
        created_at := "t", error_message := none } (by decide)

/-- C5: `get_file_status` observes the three-tier precedence exactly: a
true artifact probe yields Analyzed with no error message unconditionally
(even over a stale tracked Error or Pending); otherwise a tracked status is
returned, with the recorded error message when that status is Error;
otherwise NotFound. -/
theorem C5_get_file_status_precedence :
    ∀ (s : AnalysisState) (rootStr relPath : String),
      get_file_status s rootStr relPath true =
        (AnalysisStatus.analyzed, none) ∧
      (∀ st, storeStatusOf s rootStr relPath = some st →
        get_file_status s rootStr relPath false =
          (st, if st = AnalysisStatus.error
               then storeErrorOf s rootStr relPath else none)) ∧
      (storeStatusOf s rootStr relPath = none →
        get_file_status s rootStr relPath false =
          (AnalysisStatus.not_found, none)) := by
  intro s rootStr relPath
  refine ⟨rfl, ?_, ?_⟩
  · intro st hst
    cases hr : dictGet s.status rootStr with
    | none =>
      rw [storeStatusOf, hr] at hst
      simp [dictGet] at hst
    | some m =>
      rw [storeStatusOf, hr] at hst
      simp only [Option.getD_some] at hst
      cases he : dictGet s.errors rootStr with
      | none => simp [get_file_status, hr, hst, he, storeErrorOf, dictGet]
      | some em => simp [get_file_status, hr, hst, he, storeErrorOf]
  · intro hst
    cases hr : dictGet s.status rootStr with
    | none => simp [get_file_status, hr]
    | some m =>
      rw [storeStatusOf, hr] at hst
      simp only [Option.getD_some] at hst
      simp [get_file_status, hr, hst]

/-- Witness for C5 on `staleAnalysis`: the artifact probe wins over the
stale tracked Error; without an artifact the tracked Error and its
recorded message are returned; an untracked file is NotFound. -/
theorem C5_witness :
    get_file_status staleAnalysis "/r" "a" true =
      (AnalysisStatus.analyzed, none) ∧
    get_file_status staleAnalysis "/r" "a" false =
      (AnalysisStatus.error, some "boom") ∧
    get_file_status staleAnalysis "/r" "b" false =
      (AnalysisStatus.not_found, none) := by
  refine ⟨(C5_get_file_status_precedence staleAnalysis "/r" "a").1, ?_, ?_⟩
  · have h := (C5_get_file_status_precedence staleAnalysis "/r" "a").2.1
      AnalysisStatus.error (by decide)
    simpa using h
  · exact (C5_get_file_status_precedence staleAnalysis "/r" "b").2.2
      (by decide)

/-- C6: when the artifact probe answers true for a dequeued entry (and its
key is not in-flight, which is always the case for the single worker), the
extractor is never invoked, the file is marked Analyzed in the status
store, and — when the entry carries a non-empty job id and a job service —
the owning job's per-file status is set to Analyzed. -/
theorem C6_artifact_skips_extractor :
    ∀ (s : AnalysisState) (e : QueueEntry) (rest : List QueueEntry)
      (outcome : ExtractOutcome) (jid : String) (js : JobServiceState),
      s.queue = e :: rest →
      (pathAbsolute e.root_path, e.rel_path) ∉ s.processing →
      ((workerStep s true outcome).2 = false ∧
        storeStatusOf (workerStep s true outcome).1
          (pathAbsolute e.root_path) e.rel_path =
            some AnalysisStatus.analyzed) ∧
      (e.job_id = some jid → jid ≠ "" → s.jobSvc = some js →
        (workerStep s true outcome).1.jobSvc =
          some (update_job_file_status js jid e.rel_path
            AnalysisStatus.analyzed none) ∧
        ((dictGet js.jobs jid).isSome →
          fileStatusOf
            (update_job_file_status js jid e.rel_path
              AnalysisStatus.analyzed none) jid e.rel_path =
            some AnalysisStatus.analyzed)) := by
  intro s e rest outcome jid js hq hproc
  have hstep := workerStep_artifact s e rest outcome hq hproc
  refine ⟨⟨by rw [hstep], ?_⟩, ?_⟩
  · rw [hstep]
    simp [storeStatusOf, statusSet_lookup_self]
  · intro hjid hne hjs
    constructor
    · rw [hstep, hjid]
      exact jobNotify_jobSvc_some _ jid _ _ _ js (by simp [hjs]) hne
    · intro hjob
      exact fileStatusOf_update_self js jid e.rel_path _ none hjob

/-- Witness for C6 on `sampleAnalysis`: the extractor flag is false, the
status store and job "j" both record Analyzed. -/
theorem C6_witness :
    ((workerStep sampleAnalysis true ExtractOutcome.ok).2 = false ∧
      storeStatusOf (workerStep sampleAnalysis true ExtractOutcome.ok).1
        (pathAbsolute sampleEntry.root_path) sampleEntry.rel_path =
          some AnalysisStatus.analyzed) ∧
    (workerStep sampleAnalysis true ExtractOutcome.ok).1.jobSvc =
      some (update_job_file_status sampleJob "j" sampleEntry.rel_path
        AnalysisStatus.analyzed none) ∧
    fileStatusOf
        (update_job_file_status sampleJob "j" sampleEntry.rel_path
          AnalysisStatus.analyzed none) "j" sampleEntry.rel_path =
      some AnalysisStatus.analyzed := by
  have h := C6_artifact_skips_extractor sampleAnalysis sampleEntry []
    ExtractOutcome.ok "j" sampleJob rfl (by decide)
  have h2 := h.2 rfl (by decide) rfl
  exact ⟨h.1, h2.1, h2.2 (by decide)⟩

/-- C7: on a successful extraction the worker marks the file Analyzed and
deletes any previously recorded error message for that (root, path); on a
failed extraction (falsy result or exception) it marks Error and records
the failure's message, overwriting any previous message. -/
theorem C7_terminal_status_and_error_messages :
    ∀ (s : AnalysisState) (e : QueueEntry) (rest : List QueueEntry),
      s.queue = e :: rest →
      (pathAbsolute e.root_path, e.rel_path) ∉ s.processing →
      (dictKeys
        ((dictGet s.errors (pathAbsolute e.root_path)).getD [])).Nodup →
      (storeStatusOf (workerStep s false ExtractOutcome.ok).1
          (pathAbsolute e.root_path) e.rel_path =
            some AnalysisStatus.analyzed ∧
        storeErrorOf (workerStep s false ExtractOutcome.ok).1
          (pathAbsolute e.root_path) e.rel_path = none) ∧
      (storeStatusOf (workerStep s false ExtractOutcome.nullResult).1
          (pathAbsolute e.root_path) e.rel_path =
            some AnalysisStatus.error ∧
        storeErrorOf (workerStep s false ExtractOutcome.nullResult).1
          (pathAbsolute e.root_path) e.rel_path =
            some "Processing returned None") ∧
      (∀ msg,
        storeStatusOf (workerStep s false (ExtractOutcome.exn msg)).1
          (pathAbsolute e.root_path) e.rel_path =
            some AnalysisStatus.error ∧
        storeErrorOf (workerStep s false (ExtractOutcome.exn msg)).1
          (pathAbsolute e.root_path) e.rel_path = some msg) := by
  intro s e rest hq hproc hnd
  refine ⟨⟨?_, ?_⟩, ⟨?_, ?_⟩, fun msg => ⟨?_, ?_⟩⟩ <;>
    simp [workerStep, hq, hproc, storeStatusOf, storeErrorOf,
      statusSet_lookup_self, errorsSet_lookup_self,
      errorsDel_lookup_self _ _ _ hnd]

/-- Witness for C7 on `staleAnalysis` with the sample entry queued: success
clears the recorded "boom", both failure modes record their message. -/
theorem C7_witness :
    (storeStatusOf
        (workerStep
          { staleAnalysis with queue := [sampleEntry] } false
          ExtractOutcome.ok).1
        (pathAbsolute sampleEntry.root_path) sampleEntry.rel_path =
          some AnalysisStatus.analyzed ∧
      storeErrorOf
        (workerStep
          { staleAnalysis with queue := [sampleEntry] } false
          ExtractOutcome.ok).1
        (pathAbsolute sampleEntry.root_path) sampleEntry.rel_path = none) ∧
    (storeStatusOf
        (workerStep
          { staleAnalysis with queue := [sampleEntry] } false
          ExtractOutcome.nullResult).1
        (pathAbsolute sampleEntry.root_path) sampleEntry.rel_path =
          some AnalysisStatus.error ∧
      storeErrorOf
        (workerStep
          { staleAnalysis with queue := [sampleEntry] } false
          ExtractOutcome.nullResult).1
        (pathAbsolute sampleEntry.root_path) sampleEntry.rel_path =
          some "Processing returned None") ∧
    (storeStatusOf
        (workerStep
          { staleAnalysis with queue := [sampleEntry] } false
          (ExtractOutcome.exn "kaput")).1
        (pathAbsolute sampleEntry.root_path) sampleEntry.rel_path =
          some AnalysisStatus.error ∧
      storeErrorOf
        (workerStep
          { staleAnalysis with queue := [sampleEntry] } false
          (ExtractOutcome.exn "kaput")).1
        (pathAbsolute sampleEntry.root_path) sampleEntry.rel_path =
          some "kaput") := by
  have h := C7_terminal_status_and_error_messages
    { staleAnalysis with queue := [sampleEntry] } sampleEntry [] rfl
    (by decide) (by decide)
  exact ⟨h.1, h.2.1, h.2.2 "kaput"⟩

/-- C8: for every entry that passes the in-flight check, the worker's
(root, relative path) key is absent from the in-flight set after the
iteration on every exit path — artifact fast path, success, falsy result
and exception alike — and the queue head has been consumed, so the loop
proceeds to the next entry. -/
theorem C8_inflight_key_removed :
    ∀ (s : AnalysisState) (e : QueueEntry) (rest : List QueueEntry)
      (hasArtifact : Bool) (outcome : ExtractOutcome),
      s.queue = e :: rest →
      (pathAbsolute e.root_path, e.rel_path) ∉ s.processing →
      (pathAbsolute e.root_path, e.rel_path) ∉
        (workerStep s hasArtifact outcome).1.processing ∧
      (workerStep s hasArtifact outcome).1.queue = rest := by
  intro s e rest ha outcome hq hproc
  cases ha with
  | true =>
    have hstep := workerStep_artifact s e rest outcome hq hproc
    rw [hstep]
    exact ⟨by simpa using hproc, by simp⟩
  | false =>
    cases outcome with
    | ok =>
      constructor <;>
        simp [workerStep, hq, hproc, setDiscard_setAdd_not_mem _ _ hproc]
    | nullResult =>
      constructor <;>
        simp [workerStep, hq, hproc, setDiscard_setAdd_not_mem _ _ hproc]
    | exn msg =>
      constructor <;>
        simp [workerStep, hq, hproc, setDiscard_setAdd_not_mem _ _ hproc]

/-- Witness for C8 on `sampleAnalysis`: after processing the entry with an
exception outcome the in-flight set does not hold the key and the queue is
empty. -/
theorem C8_witness :
    (pathAbsolute sampleEntry.root_path, sampleEntry.rel_path) ∉
      AnalysisState.processing
        (workerStep sampleAnalysis false (ExtractOutcome.exn "kaput")).1 ∧
    AnalysisState.queue
        (workerStep sampleAnalysis false (ExtractOutcome.exn "kaput")).1 =
      [] :=
  C8_inflight_key_removed sampleAnalysis sampleEntry [] false
    (ExtractOutcome.exn "kaput") rfl (by decide)

/-- Counterexample to C9: in the empty-queue iteration the source sleeps
inside the `async with self.lock` block (`if not self.queue: await
asyncio.sleep(1); continue`), so the idle happens while the mutex is held —
the lock is not released before idling. -/
theorem C9_counterexample_idle_holds_lock :
    (LockEvent.sleepIdle, true) ∈
      annotateHeld false
        (workerIterTrace true false false false ExtractOutcome.ok) ∧
    annotateHeld false
        (workerIterTrace true false false false ExtractOutcome.ok) =
      [(LockEvent.acquire, true), (LockEvent.sleepIdle, true),
       (LockEvent.release, false)] := by
  decide

/-- C9 amended: the mutex is indeed never held across the blocking
extractor call — every `extractCall` event of every iteration trace occurs
with the lock released — but when the worker finds the queue empty it idles
while still holding the mutex, releasing it only after the sleep. -/
theorem C9_amended_lock_discipline :
    (∀ (queueEmpty inProcessing hasArtifact hasJob : Bool)
        (outcome : ExtractOutcome),
        (LockEvent.extractCall, true) ∉
          annotateHeld false
            (workerIterTrace queueEmpty inProcessing hasArtifact hasJob
              outcome)) ∧
    (∀ (inProcessing hasArtifact hasJob : Bool) (outcome : ExtractOutcome),
        (LockEvent.sleepIdle, true) ∈
          annotateHeld false
            (workerIterTrace true inProcessing hasArtifact hasJob
              outcome)) := by
  constructor
  · intro qe ip ha hj outcome
    cases qe <;> cases ip <;> cases ha <;> cases hj <;> cases outcome <;>
      simp [workerIterTrace, annotateHeld]
  · intro ip ha hj outcome
    cases ip <;> cases ha <;> cases hj <;> cases outcome <;>
      simp [workerIterTrace, annotateHeld]

end Ruga
